import Mathlib

/-!
Shallow embedding of the ConCall session-orchestration pipeline
(src/worker-asr/main.py and src/worker-intelligence/main.py), together
with proofs of the behavioural properties stated in the specification.

Python strings are modeled as lists of Unicode code points, numpy sample
arrays as lists of integers (only lengths are ever inspected by the
orchestration logic), and float time offsets as exact rationals.
External capabilities (Whisper, Silero VAD, Pyannote, the vLLM
completion service, Docker, Redis, wall clocks) are modeled as explicit
environment data consumed by the per-iteration step functions.
-/

namespace ConCall

/-- Python strings modeled as lists of Unicode code points. -/
abbrev Str := List Char

/-- PCM sample vectors: only their lengths matter to the orchestration code. -/
abbrev Audio := List Int

-- ---------------------------------------------------------------------------
-- Constants from the source
-- ---------------------------------------------------------------------------

/-- core/audio_utils.py: TARGET_SAMPLE_RATE = 16000. -/
def TARGET_SAMPLE_RATE : Nat := 16000

/-- worker-asr/main.py: ASR_BUFFER_SECONDS = 5.0, ASR_BUFFER_SAMPLES = 80000. -/
def ASR_BUFFER_SAMPLES : Nat := 80000

/-- worker-intelligence/main.py: CHUNK_SIZE = 5000. -/
def CHUNK_SIZE : Nat := 5000

/-- worker-intelligence/main.py: CHUNK_THRESHOLD = 10000. -/
def CHUNK_THRESHOLD : Nat := 10000

/-- worker-intelligence/main.py: SEGMENT_MERGE_WINDOW = 5. -/
def SEGMENT_MERGE_WINDOW : Nat := 5

/-- worker-intelligence/main.py: REVISION_MIN_CHARS = 30. -/
def REVISION_MIN_CHARS : Nat := 30

/-- worker-intelligence/main.py: REVISION_MAX_CHARS = 200. -/
def REVISION_MAX_CHARS : Nat := 200

-- ---------------------------------------------------------------------------
-- Python string primitives
-- ---------------------------------------------------------------------------

/-- Whitespace characters removed by the default Python str.strip. -/
def pyIsSpace (c : Char) : Bool :=
  c == ' ' || c == '\t' || c == '\n' || c == '\r' || c == '\x0b' || c == '\x0c'

/-- Python str.strip with no argument: drop whitespace from both ends. -/
def pyStrip (s : Str) : Str :=
  ((s.dropWhile pyIsSpace).reverse.dropWhile pyIsSpace).reverse

/-- Python text.split with separator newline. -/
def splitNl : Str → List Str
  | [] => [[]]
  | c :: cs =>
    if c = '\n' then [] :: splitNl cs
    else
      match splitNl cs with
      | [] => [[c]]
      | l :: ls => (c :: l) :: ls

/-- Python sep.join for an arbitrary separator string. -/
def joinSep (sep : Str) : List Str → Str
  | [] => []
  | [l] => l
  | l :: l2 :: ls => l ++ sep ++ joinSep sep (l2 :: ls)

/-- Python newline.join. -/
def joinNl (ls : List Str) : Str := joinSep ['\n'] ls

/-- Python space.join. -/
def joinSpace (ls : List Str) : Str := joinSep [' '] ls

/-- Decimal rendering of a natural number, for messages built with f-strings. -/
def natStr (n : Nat) : Str := (toString n).data

-- ---------------------------------------------------------------------------
-- worker-intelligence: split_transcript_into_chunks (lines 363-383)
-- ---------------------------------------------------------------------------

/-- Loop state of split_transcript_into_chunks: the emitted chunks, the
lines of the chunk under construction, and its running length counter. -/
structure ChunkState where
  chunks : List Str
  current : List Str
  current_len : Nat
deriving Repr

/-- One iteration of the for-loop of split_transcript_into_chunks. -/
def chunk_step (chunk_size : Nat) (st : ChunkState) (line : Str) : ChunkState :=
  let line_len := line.length + 1
  if chunk_size < st.current_len + line_len ∧ st.current ≠ [] then
    ⟨st.chunks ++ [joinNl st.current], [line], line_len⟩
  else
    ⟨st.chunks, st.current ++ [line], st.current_len + line_len⟩

/-- worker-intelligence/main.py split_transcript_into_chunks: split the
transcript on newlines and regroup whole lines into chunks, starting a
new chunk whenever appending the next line would push the running length
past chunk_size and the current chunk is nonempty. -/
def split_transcript_into_chunks (text : Str) (chunk_size : Nat) : List Str :=
  let st := (splitNl text).foldl (chunk_step chunk_size) ⟨[], [], 0⟩
  if st.current ≠ [] then st.chunks ++ [joinNl st.current] else st.chunks

/-- generate_summary (line 433): the chunked MapReduce path is selected
exactly when the assembled transcript is longer than CHUNK_THRESHOLD. -/
def uses_chunked_path (full_transcript : Str) : Bool :=
  CHUNK_THRESHOLD < full_transcript.length

-- ---------------------------------------------------------------------------
-- worker-asr: SessionBuffer (lines 238-293)
-- ---------------------------------------------------------------------------

/-- Pointwise update of a dictionary modeled as a total function; Python
defaultdicts are modeled by total functions into the default value. -/
def upd {α : Type} (f : String → α) (k : String) (v : α) : String → α :=
  fun k2 => if k2 = k then v else f k2

/-- worker-asr SessionBuffer: two independent per-session rolling audio
windows plus sample counts and cumulative time offsets (seconds). -/
structure SessionBuffer where
  asr_buffers : String → List Audio
  diarization_buffers : String → List Audio
  asr_sample_counts : String → Nat
  diarization_sample_counts : String → Nat
  segment_offsets : String → ℚ
  diarization_offsets : String → ℚ

/-- Fresh SessionBuffer: every defaultdict is empty, so every session id
reads as the default value. -/
def SessionBuffer.start : SessionBuffer :=
  ⟨fun _ => [], fun _ => [], fun _ => 0, fun _ => 0, fun _ => 0, fun _ => 0⟩

/-- SessionBuffer.add_audio: append the chunk to both windows and bump
both sample counters. -/
def SessionBuffer.add_audio (b : SessionBuffer) (sid : String) (a : Audio) :
    SessionBuffer where
  asr_buffers := upd b.asr_buffers sid (b.asr_buffers sid ++ [a])
  diarization_buffers := upd b.diarization_buffers sid (b.diarization_buffers sid ++ [a])
  asr_sample_counts := upd b.asr_sample_counts sid (b.asr_sample_counts sid + a.length)
  diarization_sample_counts :=
    upd b.diarization_sample_counts sid (b.diarization_sample_counts sid + a.length)
  segment_offsets := b.segment_offsets
  diarization_offsets := b.diarization_offsets

/-- SessionBuffer.is_asr_ready: at least ASR_BUFFER_SAMPLES accumulated. -/
def SessionBuffer.is_asr_ready (b : SessionBuffer) (sid : String) : Bool :=
  ASR_BUFFER_SAMPLES ≤ b.asr_sample_counts sid

/-- SessionBuffer.get_asr_audio: concatenate and empty the transcription
window and advance the transcription offset by the drained duration.
The call starts with np.concatenate, which raises on an empty list of
arrays; that failure is modeled by the none result (state untouched,
since the exception fires before any mutation). -/
def SessionBuffer.get_asr_audio (b : SessionBuffer) (sid : String) :
    Option (Audio × SessionBuffer) :=
  if b.asr_buffers sid = [] then none
  else
    let audio := (b.asr_buffers sid).flatten
    some (audio,
      { b with
        segment_offsets :=
          upd b.segment_offsets sid
            (b.segment_offsets sid + (audio.length : ℚ) / (TARGET_SAMPLE_RATE : ℚ))
        asr_buffers := upd b.asr_buffers sid []
        asr_sample_counts := upd b.asr_sample_counts sid 0 })

/-- SessionBuffer.get_offset: current transcription time offset. -/
def SessionBuffer.get_offset (b : SessionBuffer) (sid : String) : ℚ :=
  b.segment_offsets sid

/-- SessionBuffer.get_diarization_audio: none when the diarization window
is empty, otherwise the concatenated audio together with the offset that
held before this drain; the diarization offset advances by the drained
duration and the window empties. -/
def SessionBuffer.get_diarization_audio (b : SessionBuffer) (sid : String) :
    (Option Audio × ℚ) × SessionBuffer :=
  if b.diarization_buffers sid = [] then ((none, 0), b)
  else
    let audio := (b.diarization_buffers sid).flatten
    let offset := b.diarization_offsets sid
    ((some audio, offset),
      { b with
        diarization_offsets :=
          upd b.diarization_offsets sid
            (offset + (audio.length : ℚ) / (TARGET_SAMPLE_RATE : ℚ))
        diarization_buffers := upd b.diarization_buffers sid []
        diarization_sample_counts := upd b.diarization_sample_counts sid 0 })

/-- SessionBuffer.clear_session: pop all six per-session entries, so the
session id reads as the defaults again. -/
def SessionBuffer.clear_session (b : SessionBuffer) (sid : String) : SessionBuffer where
  asr_buffers := upd b.asr_buffers sid []
  diarization_buffers := upd b.diarization_buffers sid []
  asr_sample_counts := upd b.asr_sample_counts sid 0
  diarization_sample_counts := upd b.diarization_sample_counts sid 0
  segment_offsets := upd b.segment_offsets sid 0
  diarization_offsets := upd b.diarization_offsets sid 0

/-- Observable per-session projection of a SessionBuffer. -/
structure SessionView where
  asr_buffer : List Audio
  diar_buffer : List Audio
  asr_count : Nat
  diar_count : Nat
  seg_offset : ℚ
  diar_offset : ℚ

/-- All state a SessionBuffer holds for one session id. -/
def SessionBuffer.view (b : SessionBuffer) (sid : String) : SessionView :=
  ⟨b.asr_buffers sid, b.diarization_buffers sid, b.asr_sample_counts sid,
   b.diarization_sample_counts sid, b.segment_offsets sid, b.diarization_offsets sid⟩

-- ---------------------------------------------------------------------------
-- worker-asr: asr_loop (lines 299-392) and diarization_loop (lines 395-459)
-- ---------------------------------------------------------------------------

/-- Raw Whisper output segment: start and finish seconds relative to the
drained buffer, plus the normalized text. -/
structure RawSeg where
  start : ℚ
  finish : ℚ
  text : Str
deriving DecidableEq

/-- External model results consumed by one asr_loop iteration: the Silero
VAD verdict and the Whisper segment list for the drained buffer. -/
structure AsrEnv where
  has_speech : Bool
  segments : List RawSeg

/-- Result of one asr_loop iteration: the new buffer state, the emitted
transcription event segments (absolute timestamps) if any, and the number
of samples drained if a drain happened. -/
structure AsrStepOut where
  buf : SessionBuffer
  event : Option (List RawSeg)
  drained : Option Nat

/-- One asr_loop iteration for one accepted audio chunk (lines 331-385):
append to the session buffer; if not enough audio is accumulated, stop;
otherwise drain, run VAD (discard silently on silence), transcribe, shift
every segment by the offset that held before the drain, and emit. -/
def asr_step (env : AsrEnv) (b : SessionBuffer) (sid : String) (chunk : Audio) :
    AsrStepOut :=
  let b1 := b.add_audio sid chunk
  if b1.is_asr_ready sid then
    match b1.get_asr_audio sid with
    | none => ⟨b1, none, none⟩
    | some (audio, b2) =>
      let time_offset :=
        b2.get_offset sid - (audio.length : ℚ) / (TARGET_SAMPLE_RATE : ℚ)
      if env.has_speech then
        if env.segments = [] then ⟨b2, none, some audio.length⟩
        else
          ⟨b2,
           some (env.segments.map fun s =>
             { s with start := s.start + time_offset, finish := s.finish + time_offset }),
           some audio.length⟩
      else ⟨b2, none, some audio.length⟩
  else ⟨b1, none, none⟩

/-- Trace of an asr_loop run for one session: final buffer, transcription
events in order, and the drained sample counts in order. -/
structure AsrRun where
  buf : SessionBuffer
  events : List (List RawSeg)
  drains : List Nat

/-- Run asr_loop from a given buffer state over a list of audio chunks,
each paired with the external model results for its iteration. -/
def asr_run_from (b : SessionBuffer) (sid : String) :
    List (Audio × AsrEnv) → AsrRun
  | [] => ⟨b, [], []⟩
  | (chunk, env) :: rest =>
    let o := asr_step env b sid chunk
    let r := asr_run_from o.buf sid rest
    ⟨r.buf, o.event.toList ++ r.events, o.drained.toList ++ r.drains⟩

/-- Run asr_loop from a fresh buffer. -/
def asr_run (sid : String) (inputs : List (Audio × AsrEnv)) : AsrRun :=
  asr_run_from SessionBuffer.start sid inputs

/-- Flattened absolute segment start times of a run, in emission order. -/
def absStarts (events : List (List RawSeg)) : List ℚ :=
  (events.map fun e => e.map RawSeg.start).flatten

/-- Sum of the durations, in seconds, of a list of drained sample counts. -/
def sumDur (drains : List Nat) : ℚ :=
  (drains.map fun n => (n : ℚ) / (TARGET_SAMPLE_RATE : ℚ)).sum

/-- Interface contract of the external speech-to-text engine on one
drained buffer: segment times lie within the buffer and segment starts
are listed in order. -/
def segs_within (segs : List RawSeg) (dur : ℚ) : Prop :=
  (∀ s ∈ segs, 0 ≤ s.start ∧ s.start ≤ dur) ∧
  List.Chain' (fun a b => RawSeg.start a ≤ RawSeg.start b) segs

/-- The speech-to-text contract along a run: whenever an iteration drains
n samples, the Whisper segments supplied for that iteration lie within
the drained duration. -/
def asr_wf (b : SessionBuffer) (sid : String) : List (Audio × AsrEnv) → Prop
  | [] => True
  | (chunk, env) :: rest =>
    let o := asr_step env b sid chunk
    (∀ n, o.drained = some n → segs_within env.segments ((n : ℚ) / (TARGET_SAMPLE_RATE : ℚ))) ∧
    asr_wf o.buf sid rest

/-- Per-session diarization turn returned by Pyannote. -/
structure DiarTurn where
  start : ℚ
  finish : ℚ
  speaker : String
deriving DecidableEq

/-- One diarization_loop timer iteration for one session (lines 418-449):
drain the diarization window; skip when nothing or less than one second
was accumulated; otherwise shift the Pyannote turns by the drain offset
and emit an event when any turns were returned. -/
def diarization_step (speakers : List DiarTurn) (b : SessionBuffer) (sid : String) :
    SessionBuffer × Option (List DiarTurn) :=
  let r := b.get_diarization_audio sid
  match r.1.1 with
  | none => (r.2, none)
  | some audio =>
    if audio.length < TARGET_SAMPLE_RATE then (r.2, none)
    else if speakers = [] then (r.2, none)
    else
      (r.2,
       some (speakers.map fun s =>
         { s with start := s.start + r.1.2, finish := s.finish + r.1.2 }))

/-- States of the worker-asr SessionBuffer reachable through its
operations as invoked by the asr loop, the diarization timer and the
session monitor. -/
inductive SessionBuffer.Reachable : SessionBuffer → Prop
  | start : SessionBuffer.Reachable SessionBuffer.start
  | add_audio {b sid a} : SessionBuffer.Reachable b →
      SessionBuffer.Reachable (b.add_audio sid a)
  | drain_asr {b sid au b2} : SessionBuffer.Reachable b →
      b.get_asr_audio sid = some (au, b2) → SessionBuffer.Reachable b2
  | drain_diar {b sid} : SessionBuffer.Reachable b →
      SessionBuffer.Reachable (b.get_diarization_audio sid).2
  | clear {b sid} : SessionBuffer.Reachable b →
      SessionBuffer.Reachable (b.clear_session sid)

-- ---------------------------------------------------------------------------
-- worker-intelligence: translate_text (lines 194-253)
-- ---------------------------------------------------------------------------

/-- SENTENCE_END_RE character class (line 150). -/
def SENTENCE_END_CHARS : List Char :=
  ['.', '!', '?', '。', '！', '？', '；', '：', '\n']

/-- SENTENCE_END_RE.search applied to text.strip() (line 639): the
regex looks for a class character followed only by trailing whitespace;
on an already stripped string this holds exactly when the final
character belongs to the class. -/
def has_sentence_end (text : Str) : Bool :=
  match (pyStrip text).getLast? with
  | some c => SENTENCE_END_CHARS.contains c
  | none => false

/-- CJK detection used for direction choice (line 217). -/
def has_cjk (t : Str) : Bool :=
  t.any fun c => 0x4e00 ≤ c.toNat ∧ c.toNat ≤ 0x9fff

/-- Line 216-218: resolve the auto language into zh or en by CJK probing. -/
def resolve_source_lang (source_lang : String) (text : Str) : String :=
  if source_lang = "auto" then (if has_cjk text then "zh" else "en") else source_lang

/-- State of the external completion capability for one translate_text
call: whether the client is usable and, when a chat completion request is
actually issued, its sanitized content (none models a raised exception). -/
structure LlmEnv where
  available : Bool
  response : Option Str

/-- Dictionary returned by translate_text, restricted to the keys the
callers inspect: translated_text, source_lang, target_lang, and whether
the error key is present. -/
structure TransResult where
  translated_text : Str
  source_lang : String
  target_lang : String
  error : Bool

/-- translate_text together with a flag recording whether the external
completion service was invoked. Empty or whitespace-only input returns
immediately with an empty translation; an unavailable client returns the
offline marker with an error key; an exception from the completion call
is caught and returns the original text with an error key. -/
def translate_text (env : LlmEnv) (text : Str) (source_lang : String) :
    TransResult × Bool :=
  if pyStrip text = [] then
    (⟨[], source_lang, "unknown", false⟩, false)
  else if env.available = false then
    (⟨"(翻譯未啟用)".data, source_lang, "unknown", true⟩, false)
  else
    let src := resolve_source_lang source_lang text
    let tgt := if src = "zh" then "en" else "zh"
    match env.response with
    | some t => (⟨t, src, tgt, false⟩, true)
    | none => (⟨text, src, tgt, true⟩, true)

-- ---------------------------------------------------------------------------
-- worker-intelligence: translation_loop (lines 562-685)
-- ---------------------------------------------------------------------------

/-- Entry of the per-session segment window _session_segments. -/
structure Seg where
  text : Str
  seg_id : String
deriving DecidableEq

/-- Per-session progressive-translation state: the segment window
_session_segments and the dedup hash _last_revision_hash (none when the
key is absent, matching dict.get). -/
structure TransState where
  window : List Seg
  last_hash : Option Str
deriving DecidableEq

/-- Python list slicing l[-n:]. -/
def takeLast {α : Type} (n : Nat) (l : List α) : List α :=
  l.drop (l.length - n)

/-- Environment of one translation_loop iteration: the session language
preference check (session_lang equals zh) and the completion-capability
state for the draft call and for the possible revision call. -/
structure TransEnv where
  session_lang_zh : Bool
  draft_llm : LlmEnv
  revision_llm : LlmEnv

/-- Events published on the translations channel. -/
inductive TransOutEvent where
  | draft (seg_id : String) (original translated : Str)
  | revision (seg_ids : List String) (original translated : Str)
deriving DecidableEq

/-- Output of one translation_loop iteration: the new per-session state,
the published events in order, the texts sent to the completion service
in order, and the merged text for which the revision branch was entered,
if any. -/
structure TransStepOut where
  state : TransState
  events : List TransOutEvent
  llm_calls : List Str
  revision_attempted : Option Str
deriving DecidableEq

/-- One translation_loop iteration for one transcription message
(lines 581-680), for the session the message belongs to. The md5
parameter abstracts hashlib.md5(...).hexdigest(). Steps: skip zh-mode
sessions and whitespace-only text; append the segment and truncate the
window to the most recent SEGMENT_MERGE_WINDOW entries; draft-translate
the segment (on error, continue); publish the draft; when the window has
at least two entries, the merged text length lies in
[REVISION_MIN_CHARS, REVISION_MAX_CHARS] and the new text ends a
sentence, enter the revision branch: hash the merged text, and when the
hash differs from the stored one, store it and translate the merged text,
publishing a revision on success; the window is cleared on leaving the
revision branch; otherwise, when the merged text is overlong, collapse
the window to its last entry. -/
def translation_step (md5 : Str → Str) (env : TransEnv) (st : TransState)
    (text : Str) (seg_id : String) (source_lang : String) : TransStepOut :=
  if env.session_lang_zh then ⟨st, [], [], none⟩
  else if pyStrip text = [] then ⟨st, [], [], none⟩
  else
    let window := takeLast SEGMENT_MERGE_WINDOW (st.window ++ [⟨text, seg_id⟩])
    let draft := translate_text env.draft_llm text source_lang
    let draft_calls := if draft.2 then [text] else []
    if draft.1.error then ⟨⟨window, st.last_hash⟩, [], draft_calls, none⟩
    else
      let draftEv := TransOutEvent.draft seg_id text draft.1.translated_text
      let recent := window
      let merged := joinSpace (recent.map Seg.text)
      let merged_len := merged.length
      if 2 ≤ recent.length ∧ REVISION_MIN_CHARS ≤ merged_len ∧
          merged_len ≤ REVISION_MAX_CHARS ∧ has_sentence_end text then
        let text_hash := md5 merged
        if some text_hash ≠ st.last_hash then
          let revision := translate_text env.revision_llm merged source_lang
          let rev_calls := if revision.2 then [merged] else []
          if revision.1.error then
            ⟨⟨[], some text_hash⟩, [draftEv], draft_calls ++ rev_calls, some merged⟩
          else
            ⟨⟨[], some text_hash⟩,
             [draftEv,
              TransOutEvent.revision (recent.map Seg.seg_id) merged
                revision.1.translated_text],
             draft_calls ++ rev_calls, some merged⟩
        else ⟨⟨[], st.last_hash⟩, [draftEv], draft_calls, some merged⟩
      else if REVISION_MAX_CHARS < merged_len then
        ⟨⟨takeLast 1 recent, st.last_hash⟩, [draftEv], draft_calls, none⟩
      else ⟨⟨recent, st.last_hash⟩, [draftEv], draft_calls, none⟩

/-- One transcription message as consumed by translation_loop, together
with the external environment of its iteration. -/
structure TransMsg where
  text : Str
  seg_id : String
  language : String
  env : TransEnv

/-- Run translation_loop over a list of messages for one session. -/
def translation_run (md5 : Str → Str) (st : TransState) :
    List TransMsg → TransState × List TransOutEvent
  | [] => (st, [])
  | m :: rest =>
    let o := translation_step md5 m.env st m.text m.seg_id m.language
    let r := translation_run md5 o.state rest
    (r.1, o.events ++ r.2)

/-- Merged-text hashes of the published revision events, in order. -/
def revisionHashes (md5 : Str → Str) (events : List TransOutEvent) : List Str :=
  events.filterMap fun e =>
    match e with
    | TransOutEvent.revision _ original _ => some (md5 original)
    | TransOutEvent.draft _ _ _ => none

-- ---------------------------------------------------------------------------
-- worker-intelligence: generate_summary (lines 386-556) and
-- summary_monitor (lines 688-733)
-- ---------------------------------------------------------------------------

/-- Docker control actions issued through manage_vllm. -/
inductive VllmAction where
  | start
  | stop
deriving DecidableEq

/-- Events published on the summary channel. -/
inductive SummaryEvent where
  | summary_chunk (chunk : Str)
  | summary_done (summary : Str)
deriving DecidableEq

/-- One parsed transcript record as read back from the per-session
transcript log: its text and, when the stored timestamp was truthy, the
formatted clock string produced by datetime (external). -/
structure SummaryRecord where
  text : Str
  time_str : Option Str
deriving DecidableEq

/-- External environment of one generate_summary invocation: the
ensure_llm_ready outcome, the parsed transcript records (none marks a
record that fails JSON decoding and is skipped), the per-chunk
summarization outcomes for the Map stage (none models a raised
exception, 1-based index), and the streamed completion for the final
summary (stream_ok false models the call raising; the deltas are the
streamed content pieces). -/
structure SummaryEnv where
  warmup_ok : Bool
  records : List (Option SummaryRecord)
  chunk_response : Nat → Option Str
  stream_ok : Bool
  stream_deltas : List Str
  stream_error_text : Str

/-- Result of generate_summary: its return string, the events published
on the summary channel in order, and the Docker actions issued in order. -/
structure SummaryResult where
  ret : Str
  events : List SummaryEvent
  actions : List VllmAction
deriving DecidableEq

/-- Line 393: the warm-up failure return string. -/
def GPU_FAIL_MSG : Str := "❌ GPU 喚醒失敗，無法生成摘要。".data

/-- Line 401: the missing-transcript return string. -/
def NO_RECORDS_MSG : Str := "⚠️ 此會議沒有轉寫紀錄。".data

/-- Line 423: the empty-transcript return string. -/
def EMPTY_TRANSCRIPT_MSG : Str := "⚠️ 轉寫紀錄為空。".data

/-- Line 413: a record with a truthy timestamp renders as a bracketed
clock prefix followed by the text. -/
def record_part (r : SummaryRecord) : Str :=
  match r.time_str with
  | some ts => '[' :: (ts ++ (']' :: ' ' :: [])) ++ r.text
  | none => r.text

/-- summarize_chunk (lines 342-360): the per-chunk completion result, or
the fixed failure placeholder when the call raises. -/
def summarize_chunk (env : SummaryEnv) (i : Nat) : Str :=
  match env.chunk_response i with
  | some s => s
  | none => "（第 ".data ++ natStr i ++ " 段摘要失敗）".data

/-- Lines 504-524: fold the streamed deltas through the flush buffer,
emitting the buffer whenever it holds a newline or has reached 20
characters; returns the flushed pieces and the final leftover buffer. -/
def stream_flush (deltas : List Str) : List Str × Str :=
  deltas.foldl
    (fun acc d =>
      let buf := acc.2 ++ d
      if buf.contains '\n' ∨ 20 ≤ buf.length then (acc.1 ++ [buf], [])
      else (acc.1, buf))
    ([], [])

/-- Line 447: the chunked-mode announcement message. -/
def chunked_notice (transcript_len total_chunks : Nat) : Str :=
  "📋 逐字稿較長（".data ++ natStr transcript_len ++ " 字），啟動分段摘要（".data ++
    natStr total_chunks ++ " 段）...\n\n".data

/-- Line 460: the per-chunk progress message. -/
def chunk_progress_notice (i total_chunks : Nat) : Str :=
  "⏳ 正在處理第 ".data ++ natStr i ++ "/".data ++ natStr total_chunks ++ " 段...\n".data

/-- Line 477: the merge-stage progress message. -/
def merge_notice : Str := "\n🔄 正在整合所有段落摘要...\n\n".data

/-- Line 465: header wrapped around the i-th chunk summary before merging. -/
def chunk_summary_block (i : Nat) (summary : Str) : Str :=
  "### 第 ".data ++ natStr i ++ " 段摘要\n".data ++ summary

/-- generate_summary (lines 386-556): wake the completion service and
fail on warm-up timeout; read and assemble the transcript log, failing
when it is missing or blank (stopping the service); select the single or
chunked path on the transcript length; in chunked mode publish progress
events and run the Map stage; finally stream the summary completion,
flushing buffered deltas as summary_chunk events, publish the terminal
summary_done event, stop the service and return the summary (on a
streaming exception, stop the service and return the failure string). -/
def generate_summary (env : SummaryEnv) : SummaryResult :=
  if env.warmup_ok = false then ⟨GPU_FAIL_MSG, [], [VllmAction.start]⟩
  else if env.records = [] then
    ⟨NO_RECORDS_MSG, [], [VllmAction.start, VllmAction.stop]⟩
  else
    let full_transcript := joinNl ((env.records.filterMap id).map record_part)
    if pyStrip full_transcript = [] then
      ⟨EMPTY_TRANSCRIPT_MSG, [], [VllmAction.start, VllmAction.stop]⟩
    else
      let pre_events :=
        if uses_chunked_path full_transcript then
          let chunks := split_transcript_into_chunks full_transcript CHUNK_SIZE
          let total := chunks.length
          [SummaryEvent.summary_chunk (chunked_notice full_transcript.length total)] ++
            (List.range total).map
              (fun i => SummaryEvent.summary_chunk (chunk_progress_notice (i + 1) total)) ++
            [SummaryEvent.summary_chunk merge_notice]
        else []
      if env.stream_ok then
        let flushed := stream_flush env.stream_deltas
        let full_summary := env.stream_deltas.flatten
        let tail_events :=
          if flushed.2 ≠ [] then [SummaryEvent.summary_chunk flushed.2] else []
        ⟨full_summary,
         pre_events ++ flushed.1.map SummaryEvent.summary_chunk ++ tail_events ++
           [SummaryEvent.summary_done full_summary],
         [VllmAction.start, VllmAction.stop]⟩
      else
        ⟨"❌ 摘要生成失敗: ".data ++ env.stream_error_text, pre_events,
         [VllmAction.start, VllmAction.stop]⟩

/-- summary_monitor handling of one session_ended signal (lines 707-728):
run generate_summary; when its return value is an error string (marked by
the leading cross or warning sign), publish it once as a terminal
summary_done event. -/
def summary_monitor_on_end (env : SummaryEnv) : SummaryResult :=
  let g := generate_summary env
  if List.isPrefixOf "❌".data g.ret ∨ List.isPrefixOf "⚠️".data g.ret then
    { g with events := g.events ++ [SummaryEvent.summary_done g.ret] }
  else g

-- ---------------------------------------------------------------------------
-- Session-end signal handling across the two workers
-- ---------------------------------------------------------------------------

/-- One status-channel message with the fields the monitors read. -/
structure StatusMsg where
  status : String
  session_id : Option String

/-- worker-asr session_monitor (lines 462-478): on a session_ended or
session_disconnected status with a truthy session id, clear that
session's buffers. -/
def session_monitor_step (b : SessionBuffer) (m : StatusMsg) : SessionBuffer :=
  if m.status = "session_ended" ∨ m.status = "session_disconnected" then
    match m.session_id with
    | some sid => if sid ≠ "" then b.clear_session sid else b
    | none => b
  else b

/-- Worker-intelligence module state touched by the progressive
translation engine: _session_segments and _last_revision_hash
(lines 145-146), modeled per session id. -/
structure IntelState where
  session_segments : String → List Seg
  last_revision_hash : String → Option Str

/-- Worker-intelligence reaction of the translation state to a
status-channel message: the only status subscriber, summary_monitor,
never touches _session_segments or _last_revision_hash, so the
translation state is left unchanged by session_ended and
session_disconnected signals. -/
def intelligence_status_step (st : IntelState) (_m : StatusMsg) : IntelState :=
  st

-- ---------------------------------------------------------------------------
-- Derived definitions used by the statements, and concrete test vectors
-- ---------------------------------------------------------------------------

attribute [ext] SessionBuffer

/-- Running length counter maintained by split_transcript_into_chunks:
each line contributes its length plus one for the separating newline. -/
def sumLL (ls : List Str) : Nat := (ls.map fun l => l.length + 1).sum

/-- A 12000-character transcript consisting of one single line. -/
def oneLine12000 : Str := List.replicate 12000 'a'

/-- A small two-line transcript used to witness chunk_split_bounds. -/
def twoLineText : Str :=
  List.replicate 30 'a' ++ '\n' :: List.replicate 40 'b'

/-- A session buffer that accumulated a single half-second audio chunk. -/
def shortBuf : SessionBuffer :=
  SessionBuffer.start.add_audio "s" (List.replicate 8000 0)

/-- Worker-intelligence translation state holding a pending window entry
and a stored revision hash for session s1. -/
def staleIntel : IntelState :=
  ⟨upd (fun _ => []) "s1" [⟨"hello there friend.".data, "seg1"⟩],
   upd (fun _ => none) "s1" (some "h1".data)⟩

/-- A summarization environment in which the heavy completion service
never becomes ready within the warm-up timeout. -/
def warmupFailEnv : SummaryEnv :=
  ⟨false, [], fun _ => none, true, [], []⟩

/-- Terminal sentence punctuation, the spec-side reading of the
SENTENCE_END_RE class: the newline of the class cannot terminate a
stripped string and is therefore not listed. -/
def TERMINAL_PUNCT : List Char := ['.', '!', '?', '。', '！', '？', '；', '：']

/-- Spec wording for C5: the segment text ends in terminal sentence
punctuation (after stripping surrounding whitespace). -/
def ends_in_terminal_punct (t : Str) : Prop :=
  ∃ c, (pyStrip t).getLast? = some c ∧ c ∈ TERMINAL_PUNCT

/-- Window formed by translation_loop for a new segment: append and keep
the most recent SEGMENT_MERGE_WINDOW entries (lines 598-606). -/
def step_window (st : TransState) (text : Str) (seg_id : String) : List Seg :=
  takeLast SEGMENT_MERGE_WINDOW (st.window ++ [⟨text, seg_id⟩])

/-- Merged text of the window as built on line 640. -/
def step_merged (st : TransState) (text : Str) (seg_id : String) : Str :=
  joinSpace ((step_window st text seg_id).map Seg.text)

/-- Identity hash: a concrete instantiation of the md5 parameter used by
the counterexample traces (only hash equality is ever inspected). -/
def idHash : Str → Str := fun s => s

/-- A translation-loop environment with a non-zh session and successful
draft and revision completions. -/
def okTransEnv : TransEnv :=
  ⟨false, ⟨true, some "d".data⟩, ⟨true, some "r".data⟩⟩

/-- Segment texts used by the duplicate-revision trace. -/
def dupT1 : Str := "the quick brown fox jumps over".data

/-- Second segment text: ends with terminal punctuation. -/
def dupT2 : Str := "the lazy dog.".data

/-- Third segment text: a fresh window without punctuation. -/
def dupT3 : Str := "a different topic comes up now".data

/-- Fourth segment text: ends with terminal punctuation. -/
def dupT4 : Str := "and it ends here.".data

/-- Merged text of the first and third revisions. -/
def dupM1 : Str := dupT1 ++ ' ' :: dupT2

/-- Merged text of the second revision. -/
def dupM2 : Str := dupT3 ++ ' ' :: dupT4

/-- Bookkeeping invariant of the transcription window: the cached sample
count always equals the total length of the buffered chunks. -/
def SessionBuffer.CountInv (b : SessionBuffer) : Prop :=
  ∀ sid, b.asr_sample_counts sid = ((b.asr_buffers sid).map List.length).sum

/-- A five-second audio chunk (the transcription readiness threshold). -/
def bigChunk : Audio := List.replicate 80000 0

/-- A session buffer holding exactly five seconds of audio. -/
def readyBuf : SessionBuffer := SessionBuffer.start.add_audio "s" bigChunk

/-- Whisper results used by the C1 witness run: two in-buffer segments
with ordered starts inside the five-second drained window. -/
def c1Env : AsrEnv := ⟨true, [⟨0, 2, "hi".data⟩, ⟨2, 5, "yo".data⟩]⟩

/-- A one-iteration input list for the C1 witness run. -/
def c1Inputs : List (Audio × AsrEnv) := [(bigChunk, c1Env)]

/-- Six transcription messages for one session whose merged windows
produce the revision sequence dupM1, dupM2, dupM1. -/
def dupTrace : List TransMsg :=
  [⟨dupT1, "g1", "en", okTransEnv⟩,
   ⟨dupT2, "g2", "en", okTransEnv⟩,
   ⟨dupT3, "g3", "en", okTransEnv⟩,
   ⟨dupT4, "g4", "en", okTransEnv⟩,
   ⟨dupT1, "g5", "en", okTransEnv⟩,
   ⟨dupT2, "g6", "en", okTransEnv⟩]

-- ---------------------------------------------------------------------------
-- String lemmas
-- ---------------------------------------------------------------------------

lemma splitNl_ne_nil (s : Str) : splitNl s ≠ [] := by
  cases s with
  | nil => simp [splitNl]
  | cons c cs =>
    unfold splitNl
    by_cases h : c = '\n'
    · simp [h]
    · rw [if_neg h]
      cases splitNl cs <;> simp

lemma joinNl_cons (l : Str) (ls : List Str) (h : ls ≠ []) :
    joinNl (l :: ls) = l ++ '\n' :: joinNl ls := by
  cases ls with
  | nil => exact absurd rfl h
  | cons l2 ls2 => simp [joinNl, joinSep]

lemma joinNl_splitNl (s : Str) : joinNl (splitNl s) = s := by
  induction s with
  | nil => simp [splitNl, joinNl, joinSep]
  | cons c cs ih =>
    unfold splitNl
    by_cases h : c = '\n'
    · rw [if_pos h, joinNl_cons _ _ (splitNl_ne_nil cs), ih, h]
      rfl
    · rw [if_neg h]
      cases hs : splitNl cs with
      | nil => exact absurd hs (splitNl_ne_nil cs)
      | cons l ls =>
        rw [hs] at ih
        cases ls with
        | nil =>
          simp only [joinNl, joinSep] at ih ⊢
          rw [ih]
        | cons l2 ls2 =>
          rw [joinNl_cons _ _ (by simp)] at ih
          rw [joinNl_cons _ _ (by simp)]
          simp only [List.cons_append, ← ih]

lemma splitNl_no_nl (l : Str) (h : '\n' ∉ l) : splitNl l = [l] := by
  induction l with
  | nil => rfl
  | cons c cs ih =>
    simp only [List.mem_cons, not_or] at h
    unfold splitNl
    rw [if_neg (fun hc => h.1 hc.symm), ih h.2]

lemma joinNl_append (a b : List Str) (ha : a ≠ []) (hb : b ≠ []) :
    joinNl (a ++ b) = joinNl a ++ '\n' :: joinNl b := by
  induction a with
  | nil => exact absurd rfl ha
  | cons l a1 ih =>
    cases a1 with
    | nil => simpa using joinNl_cons l b hb
    | cons l1 a2 =>
      rw [List.cons_append, joinNl_cons _ _ (by simp),
          joinNl_cons _ _ (by simp), ih (by simp)]
      simp

lemma append_ne_nil_left {α : Type} (l m : List α) (h : l ≠ []) : l ++ m ≠ [] := by
  cases l with
  | nil => exact absurd rfl h
  | cons x xs => simp

lemma joinNl_flatten (gs : List (List Str)) (h : ∀ g ∈ gs, g ≠ []) :
    joinNl (gs.map joinNl) = joinNl gs.flatten := by
  induction gs with
  | nil => rfl
  | cons g gs1 ih =>
    cases gs1 with
    | nil => simp [joinNl, joinSep]
    | cons g1 gs2 =>
      have hg : g ≠ [] := h g (by simp)
      have hrest : ∀ x ∈ g1 :: gs2, x ≠ [] := fun x hx => h x (by simp [hx])
      have hflat : (g1 :: gs2).flatten ≠ [] := by
        rw [List.flatten_cons]
        exact append_ne_nil_left _ _ (hrest g1 (by simp))
      rw [List.map_cons, joinNl_cons _ _ (by simp), ih hrest]
      have hfc : (g :: g1 :: gs2).flatten = g ++ (g1 :: gs2).flatten := by simp
      rw [hfc, joinNl_append g _ hg hflat]

lemma sumLL_append (a b : List Str) : sumLL (a ++ b) = sumLL a + sumLL b := by
  simp [sumLL]

lemma joinNl_length (ls : List Str) (h : ls ≠ []) :
    (joinNl ls).length + 1 = sumLL ls := by
  induction ls with
  | nil => exact absurd rfl h
  | cons l ls1 ih =>
    cases ls1 with
    | nil => simp [joinNl, joinSep, sumLL]
    | cons l2 ls2 =>
      rw [joinNl_cons _ _ (by simp)]
      have h2 := ih (by simp)
      simp only [sumLL, List.map_cons, List.sum_cons] at h2 ⊢
      simp only [List.length_append, List.length_cons]
      omega

-- ---------------------------------------------------------------------------
-- Chunk splitter lemmas
-- ---------------------------------------------------------------------------

lemma chunk_fold_spec (cs : Nat) (lines : List Str) :
    ∀ st : ChunkState,
      ∃ gs : List (List Str),
        (lines.foldl (chunk_step cs) st).chunks = st.chunks ++ gs.map joinNl ∧
        (∀ g ∈ gs, g ≠ []) ∧
        gs.flatten ++ (lines.foldl (chunk_step cs) st).current = st.current ++ lines ∧
        ((lines.foldl (chunk_step cs) st).current = [] → gs = [] ∧ st.current = []) := by
  induction lines with
  | nil =>
    intro st
    exact ⟨[], by simp, by simp, by simp, fun h => ⟨rfl, h⟩⟩
  | cons line rest ih =>
    intro st
    rw [List.foldl_cons]
    by_cases hc : cs < st.current_len + (line.length + 1) ∧ st.current ≠ []
    · have hstep : chunk_step cs st line =
          ⟨st.chunks ++ [joinNl st.current], [line], line.length + 1⟩ := by
        simp only [chunk_step]
        rw [if_pos hc]
      rw [hstep]
      obtain ⟨gs1, h1, h2, h3, h4⟩ :=
        ih ⟨st.chunks ++ [joinNl st.current], [line], line.length + 1⟩
      refine ⟨st.current :: gs1, ?_, ?_, ?_, ?_⟩
      · rw [h1]; simp
      · intro g hg
        rcases List.mem_cons.mp hg with hg | hg
        · exact hg ▸ hc.2
        · exact h2 g hg
      · rw [List.flatten_cons, List.append_assoc, h3]; simp
      · intro hcur
        obtain ⟨-, hbad⟩ := h4 hcur
        exact absurd hbad (by simp)
    · have hstep : chunk_step cs st line =
          ⟨st.chunks, st.current ++ [line], st.current_len + (line.length + 1)⟩ := by
        simp only [chunk_step]
        rw [if_neg hc]
      rw [hstep]
      obtain ⟨gs1, h1, h2, h3, h4⟩ :=
        ih ⟨st.chunks, st.current ++ [line], st.current_len + (line.length + 1)⟩
      refine ⟨gs1, h1, h2, ?_, ?_⟩
      · rw [h3]; simp
      · intro hcur
        obtain ⟨-, hbad⟩ := h4 hcur
        exact absurd hbad (by simp)

lemma split_join_eq (text : Str) (cs : Nat) :
    joinNl (split_transcript_into_chunks text cs) = text := by
  unfold split_transcript_into_chunks
  obtain ⟨gs, h1, h2, h3, h4⟩ := chunk_fold_spec cs (splitNl text) ⟨[], [], 0⟩
  set st := (splitNl text).foldl (chunk_step cs) ⟨[], [], 0⟩ with hst
  by_cases hcur : st.current = []
  · obtain ⟨hgs, -⟩ := h4 hcur
    rw [hgs, hcur] at h3
    simp only [List.flatten_nil, List.nil_append, List.append_nil] at h3
    exact absurd h3.symm (splitNl_ne_nil text)
  · rw [if_pos hcur]
    have hchunks : st.chunks = gs.map joinNl := by simpa using h1
    have hne : ∀ g ∈ gs ++ [st.current], g ≠ [] := by
      intro g hg
      rcases List.mem_append.mp hg with hg | hg
      · exact h2 g hg
      · simp only [List.mem_singleton] at hg
        exact hg ▸ hcur
    calc joinNl (st.chunks ++ [joinNl st.current])
        = joinNl ((gs ++ [st.current]).map joinNl) := by rw [hchunks]; simp
      _ = joinNl (gs ++ [st.current]).flatten := joinNl_flatten _ hne
      _ = joinNl (gs.flatten ++ st.current) := by simp
      _ = joinNl (splitNl text) := by
            rw [h3]
            simp
      _ = text := joinNl_splitNl text

lemma chunk_fold_bound (cs : Nat) (lines : List Str) :
    ∀ st : ChunkState,
      (∀ l ∈ lines, l.length + 1 ≤ cs) →
      st.current_len = sumLL st.current →
      st.current_len ≤ cs →
      (∀ c ∈ st.chunks, c.length + 1 ≤ cs) →
      (∀ c ∈ (lines.foldl (chunk_step cs) st).chunks, c.length + 1 ≤ cs) ∧
      (lines.foldl (chunk_step cs) st).current_len ≤ cs ∧
      (lines.foldl (chunk_step cs) st).current_len =
        sumLL (lines.foldl (chunk_step cs) st).current := by
  induction lines with
  | nil =>
    intro st _ hcl hle hch
    exact ⟨hch, hle, hcl⟩
  | cons line rest ih =>
    intro st hl hcl hle hch
    rw [List.foldl_cons]
    have hline : line.length + 1 ≤ cs := hl line (by simp)
    have hrest : ∀ l ∈ rest, l.length + 1 ≤ cs := fun l h => hl l (by simp [h])
    by_cases hc : cs < st.current_len + (line.length + 1) ∧ st.current ≠ []
    · have hstep : chunk_step cs st line =
          ⟨st.chunks ++ [joinNl st.current], [line], line.length + 1⟩ := by
        simp only [chunk_step]
        rw [if_pos hc]
      rw [hstep]
      refine ih _ hrest (by simp [sumLL]) hline ?_
      intro c hcm
      rcases List.mem_append.mp hcm with hcm | hcm
      · exact hch c hcm
      · simp only [List.mem_singleton] at hcm
        subst hcm
        rw [joinNl_length _ hc.2, ← hcl]
        exact hle
    · have hstep : chunk_step cs st line =
          ⟨st.chunks, st.current ++ [line], st.current_len + (line.length + 1)⟩ := by
        simp only [chunk_step]
        rw [if_neg hc]
      rw [hstep]
      refine ih _ hrest (by simp [sumLL_append, sumLL, hcl]) ?_ hch
      show st.current_len + (line.length + 1) ≤ cs
      rcases not_and_or.mp hc with hc | hc
      · omega
      · push_neg at hc
        have h0 : st.current_len = 0 := by rw [hcl, hc]; simp [sumLL]
        omega

-- ---------------------------------------------------------------------------
-- Claim C8
-- ---------------------------------------------------------------------------

/-- C8: for every input transcript text, joining the chunks produced by
split_transcript_into_chunks, in order, with newline separators
reproduces the original transcript exactly. -/
theorem chunk_split_lossless (text : Str) (chunk_size : Nat) :
    joinNl (split_transcript_into_chunks text chunk_size) = text :=
  split_join_eq text chunk_size

-- ---------------------------------------------------------------------------
-- Claim C4
-- ---------------------------------------------------------------------------

lemma chunk_step_empty_current (cs n : Nat) (ch : List Str) (line : Str) :
    chunk_step cs ⟨ch, [], n⟩ line = ⟨ch, [line], n + (line.length + 1)⟩ := by
  simp only [chunk_step]
  rw [if_neg (fun hcc => hcc.2 rfl)]
  simp

/-- C4, counterexample: a 12000-character transcript made of one single
line selects the chunked path, but split_transcript_into_chunks returns
it as one chunk of 12000 characters, exceeding the 5000-character limit
and falling short of the claimed two chunks. -/
theorem chunk_oversized_line_counterexample :
    uses_chunked_path oneLine12000 = true ∧
    split_transcript_into_chunks oneLine12000 CHUNK_SIZE = [oneLine12000] ∧
    (split_transcript_into_chunks oneLine12000 CHUNK_SIZE).length = 1 ∧
    ∃ c ∈ split_transcript_into_chunks oneLine12000 CHUNK_SIZE,
      CHUNK_SIZE < c.length := by
  have hnl : '\n' ∉ oneLine12000 := by
    simp only [oneLine12000, List.mem_replicate]
    decide
  have hs : splitNl oneLine12000 = [oneLine12000] := splitNl_no_nl _ hnl
  have hsplit : split_transcript_into_chunks oneLine12000 CHUNK_SIZE = [oneLine12000] := by
    unfold split_transcript_into_chunks
    rw [hs, List.foldl_cons, List.foldl_nil, chunk_step_empty_current]
    rw [if_pos (by simp)]
    simp [joinNl, joinSep]
  have hlen : oneLine12000.length = 12000 := by
    simp only [oneLine12000, List.length_replicate]
  refine ⟨?_, hsplit, by rw [hsplit]; rfl, ?_⟩
  · simp only [uses_chunked_path, hlen, CHUNK_THRESHOLD]
    decide
  · rw [hsplit]
    refine ⟨oneLine12000, by simp, ?_⟩
    rw [hlen]
    decide

/-- C4, amended: when every line of the transcript fits the limit (its
length plus its newline is at most 5000), the chunked splitter never
splits a line (joining the chunks with newlines restores the
transcript), every chunk is at most 5000 characters long, and a
12000-character transcript selects the chunked path and yields at least
two chunks; without the line-length proviso a single overlong line
becomes its own chunk exceeding the limit. -/
theorem chunk_split_bounds (text : Str)
    (hlines : ∀ l ∈ splitNl text, l.length + 1 ≤ CHUNK_SIZE) :
    (∀ c ∈ split_transcript_into_chunks text CHUNK_SIZE, c.length ≤ CHUNK_SIZE) ∧
    joinNl (split_transcript_into_chunks text CHUNK_SIZE) = text ∧
    (text.length = 12000 →
      uses_chunked_path text = true ∧
      2 ≤ (split_transcript_into_chunks text CHUNK_SIZE).length) := by
  have hbound : ∀ c ∈ split_transcript_into_chunks text CHUNK_SIZE,
      c.length + 1 ≤ CHUNK_SIZE := by
    intro c hc
    unfold split_transcript_into_chunks at hc
    obtain ⟨hch, hle, hcl⟩ :=
      chunk_fold_bound CHUNK_SIZE (splitNl text) ⟨[], [], 0⟩ hlines
        (by simp [sumLL]) (by simp [CHUNK_SIZE]) (by simp)
    set st := (splitNl text).foldl (chunk_step CHUNK_SIZE) ⟨[], [], 0⟩ with hst
    by_cases hcur : st.current = []
    · rw [if_neg (by simpa using hcur)] at hc
      exact hch c hc
    · rw [if_pos hcur] at hc
      rcases List.mem_append.mp hc with hcm | hcm
      · exact hch c hcm
      · simp only [List.mem_singleton] at hcm
        subst hcm
        rw [joinNl_length _ hcur, ← hcl]
        exact hle
  refine ⟨fun c hc => Nat.le_of_succ_le (hbound c hc), split_join_eq text CHUNK_SIZE, ?_⟩
  intro hlen
  refine ⟨by simp [uses_chunked_path, hlen, CHUNK_THRESHOLD], ?_⟩
  by_contra hlt
  push_neg at hlt
  interval_cases h : (split_transcript_into_chunks text CHUNK_SIZE).length
  · have : joinNl (split_transcript_into_chunks text CHUNK_SIZE) = [] := by
      rw [List.length_eq_zero.mp h]
      rfl
    rw [split_join_eq text CHUNK_SIZE] at this
    rw [this] at hlen
    simp at hlen
  · obtain ⟨c, hc⟩ := List.length_eq_one.mp h
    have hcb := hbound c (by rw [hc]; simp)
    have : joinNl (split_transcript_into_chunks text CHUNK_SIZE) = c := by
      rw [hc]
      simp [joinNl, joinSep]
    rw [split_join_eq text CHUNK_SIZE] at this
    rw [← this] at hcb
    rw [hlen] at hcb
    simp only [CHUNK_SIZE] at hcb
    omega

/-- C4, witness: the amended theorem applies to a concrete two-line
transcript whose lines fit the limit. -/
theorem chunk_split_bounds_witness :
    (∀ l ∈ splitNl twoLineText, l.length + 1 ≤ CHUNK_SIZE) ∧
    ((∀ c ∈ split_transcript_into_chunks twoLineText CHUNK_SIZE, c.length ≤ CHUNK_SIZE) ∧
      joinNl (split_transcript_into_chunks twoLineText CHUNK_SIZE) = twoLineText ∧
      (twoLineText.length = 12000 →
        uses_chunked_path twoLineText = true ∧
        2 ≤ (split_transcript_into_chunks twoLineText CHUNK_SIZE).length)) :=
  ⟨by decide, chunk_split_bounds twoLineText (by decide)⟩

-- ---------------------------------------------------------------------------
-- Dictionary update lemmas
-- ---------------------------------------------------------------------------

lemma upd_same {α : Type} (f : String → α) (k : String) (v : α) : upd f k v k = v := by
  simp [upd]

lemma upd_upd_same {α : Type} (f : String → α) (k : String) (v w : α) :
    upd (upd f k v) k w = upd f k w := by
  funext x
  by_cases h : x = k <;> simp [upd, h]

lemma upd_const {α : Type} (k : String) (v : α) :
    upd (fun _ => v) k v = fun _ => v := by
  funext x
  by_cases h : x = k <;> simp [upd, h]

lemma add_audio_diar_buf (b : SessionBuffer) (sid : String) (a : Audio) :
    (b.add_audio sid a).diarization_buffers sid = b.diarization_buffers sid ++ [a] := by
  simp [SessionBuffer.add_audio, upd_same]

lemma add_audio_diar_count (b : SessionBuffer) (sid : String) (a : Audio) :
    (b.add_audio sid a).diarization_sample_counts sid =
      b.diarization_sample_counts sid + a.length := by
  simp [SessionBuffer.add_audio, upd_same]

-- ---------------------------------------------------------------------------
-- Claim C6
-- ---------------------------------------------------------------------------

lemma shortBuf_diar_buf : shortBuf.diarization_buffers "s" = [List.replicate 8000 0] := by
  rw [shortBuf, add_audio_diar_buf]
  rfl

/-- C6, counterexample: a session whose diarization window has
accumulated 8000 samples, fewer than one second, yields SOME audio from
the drain, not none: get_diarization_audio returns none only for an
empty window. -/
theorem diarization_short_drain_counterexample :
    shortBuf.diarization_sample_counts "s" < TARGET_SAMPLE_RATE ∧
    ((shortBuf.get_diarization_audio "s").1.1).isSome = true := by
  have hc : shortBuf.diarization_sample_counts "s" = 8000 := by
    rw [shortBuf, add_audio_diar_count, List.length_replicate]
    simp [SessionBuffer.start]
  constructor
  · rw [hc]
    decide
  · unfold SessionBuffer.get_diarization_audio
    rw [shortBuf_diar_buf, if_neg (List.cons_ne_nil _ _)]
    rfl

/-- C6, amended: get_diarization_audio yields none exactly when the
diarization window is empty; when the accumulated samples are fewer than
one second (16000 samples), the diarization loop iteration emits no
event for the session in that timer cycle (the nonempty short window is
still drained and returned). -/
theorem diarization_short_window_no_event (b : SessionBuffer) (sid : String)
    (speakers : List DiarTurn)
    (hshort : ((b.diarization_buffers sid).flatten).length < TARGET_SAMPLE_RATE) :
    (diarization_step speakers b sid).2 = none ∧
    ((b.get_diarization_audio sid).1.1 = none ↔ b.diarization_buffers sid = []) := by
  by_cases hb : b.diarization_buffers sid = []
  · have hget : (b.get_diarization_audio sid).1.1 = none := by
      unfold SessionBuffer.get_diarization_audio
      rw [if_pos hb]
    refine ⟨?_, by simp [hget, hb]⟩
    simp only [diarization_step]
    rw [hget]
  · have hget : (b.get_diarization_audio sid).1.1 =
        some (b.diarization_buffers sid).flatten := by
      unfold SessionBuffer.get_diarization_audio
      rw [if_neg hb]
    refine ⟨?_, by simp [hget, hb]⟩
    simp only [diarization_step]
    rw [hget]
    simp only [if_pos hshort]

/-- C6, witness: the amended theorem applied to the concrete
half-second buffer. -/
theorem diarization_short_window_no_event_witness :
    ((shortBuf.diarization_buffers "s").flatten).length < TARGET_SAMPLE_RATE ∧
    ((diarization_step [] shortBuf "s").2 = none ∧
      ((shortBuf.get_diarization_audio "s").1.1 = none ↔
        shortBuf.diarization_buffers "s" = [])) := by
  have hshort : ((shortBuf.diarization_buffers "s").flatten).length < TARGET_SAMPLE_RATE := by
    rw [shortBuf_diar_buf, List.flatten_cons, List.flatten_nil, List.append_nil,
      List.length_replicate]
    decide
  exact ⟨hshort, diarization_short_window_no_event shortBuf "s" [] hshort⟩

-- ---------------------------------------------------------------------------
-- Claim C7
-- ---------------------------------------------------------------------------

/-- C7, counterexample: after the workers process a session_ended signal
for s1, the worker-intelligence translation segment window and
last-revision hash of s1 are still present — no code clears them, so the
session's state is not fully removed as claimed. -/
theorem session_end_translation_state_persists :
    (intelligence_status_step staleIntel ⟨"session_ended", some "s1"⟩).session_segments "s1"
        ≠ [] ∧
    (intelligence_status_step staleIntel ⟨"session_ended", some "s1"⟩).last_revision_hash "s1"
        ≠ none := by
  constructor <;> simp [intelligence_status_step, staleIntel, upd]

/-- C7, amended: clear_session removes all six per-session components of
the worker-asr SessionBuffer (the cleared session reads as in a fresh
buffer), clearing an already-cleared session is a no-op leaving the
whole buffer unchanged, audio added after a clear behaves exactly as in
a brand-new session, and the session monitor clears the buffer on both
end and disconnect signals; the worker-intelligence translation window
and last-revision hash, however, are NOT cleared by any status signal. -/
theorem clear_session_spec (b : SessionBuffer) (sid : String) (st : IntelState)
    (m : StatusMsg) :
    (b.clear_session sid).view sid = SessionBuffer.start.view sid ∧
    (b.clear_session sid).clear_session sid = b.clear_session sid ∧
    SessionBuffer.start.clear_session sid = SessionBuffer.start ∧
    (∀ a : Audio, ((b.clear_session sid).add_audio sid a).view sid =
      (SessionBuffer.start.add_audio sid a).view sid) ∧
    (session_monitor_step b ⟨"session_ended", some sid⟩ =
      if sid ≠ "" then b.clear_session sid else b) ∧
    intelligence_status_step st m = st := by
  refine ⟨?_, ?_, ?_, ?_, ?_, rfl⟩
  · simp [SessionBuffer.view, SessionBuffer.clear_session, SessionBuffer.start, upd_same]
  · ext x <;> simp [SessionBuffer.clear_session, upd_upd_same]
  · ext x <;> simp [SessionBuffer.clear_session, SessionBuffer.start, upd_const]
  · intro a
    simp [SessionBuffer.view, SessionBuffer.add_audio, SessionBuffer.clear_session,
      SessionBuffer.start, upd_same, upd_upd_same]
  · simp [session_monitor_step]

-- ---------------------------------------------------------------------------
-- Claim C2
-- ---------------------------------------------------------------------------

/-- C2, counterexample: on the warm-up-timeout path, generate_summary
returns before any stop request is issued: the Docker actions of the
whole session-ended handling contain no stop, so the heavy-service lease
is not returned to stopped (only a start was requested); the single
terminal event does carry the warm-up failure message. -/
theorem warmup_no_stop_counterexample :
    VllmAction.stop ∉ (summary_monitor_on_end warmupFailEnv).actions ∧
    (summary_monitor_on_end warmupFailEnv).actions = [VllmAction.start] ∧
    (summary_monitor_on_end warmupFailEnv).events =
      [SummaryEvent.summary_done GPU_FAIL_MSG] := by
  decide

/-- C2, amended: if the heavy completion service never becomes ready
within the warm-up timeout, the summarization job for that session fails
with exactly one terminal summary event carrying the explicit GPU
warm-up failure message; however the heavy service is not stopped on
this path — the only lifecycle action issued is the start request from
ensure_llm_ready. -/
theorem warmup_failure_single_event (env : SummaryEnv)
    (h : env.warmup_ok = false) :
    (summary_monitor_on_end env).events = [SummaryEvent.summary_done GPU_FAIL_MSG] ∧
    (summary_monitor_on_end env).actions = [VllmAction.start] := by
  have hgen : generate_summary env = ⟨GPU_FAIL_MSG, [], [VllmAction.start]⟩ := by
    unfold generate_summary
    rw [h]
    simp
  unfold summary_monitor_on_end
  rw [hgen]
  rw [if_pos (Or.inl (by decide))]
  exact ⟨rfl, rfl⟩

/-- C2, witness: the amended theorem applied to the concrete failing
warm-up environment. -/
theorem warmup_failure_single_event_witness :
    warmupFailEnv.warmup_ok = false ∧
    ((summary_monitor_on_end warmupFailEnv).events =
        [SummaryEvent.summary_done GPU_FAIL_MSG] ∧
      (summary_monitor_on_end warmupFailEnv).actions = [VllmAction.start]) :=
  ⟨rfl, warmup_failure_single_event warmupFailEnv rfl⟩

-- ---------------------------------------------------------------------------
-- Stripping lemmas
-- ---------------------------------------------------------------------------

lemma pyStrip_all_space (text : Str) (h : ∀ c ∈ text, pyIsSpace c = true) :
    pyStrip text = [] := by
  unfold pyStrip
  rw [List.dropWhile_eq_nil_iff.mpr h]
  rfl

lemma dropWhile_head_not {p : Char → Bool} :
    ∀ (l : Str) (c : Char), (l.dropWhile p).head? = some c → p c = false
  | [], c => by simp
  | x :: xs, c => by
    by_cases hx : p x
    · rw [List.dropWhile_cons_of_pos hx]
      exact dropWhile_head_not xs c
    · rw [List.dropWhile_cons_of_neg hx]
      intro hc
      simp only [List.head?_cons, Option.some.injEq] at hc
      rw [← hc]
      exact Bool.eq_false_iff.mpr hx

lemma pyStrip_getLast_not_space (t : Str) (c : Char)
    (h : (pyStrip t).getLast? = some c) : pyIsSpace c = false := by
  unfold pyStrip at h
  rw [List.getLast?_reverse] at h
  exact dropWhile_head_not _ c h

lemma sentence_end_iff (t : Str) :
    has_sentence_end t = true ↔ ends_in_terminal_punct t := by
  unfold has_sentence_end ends_in_terminal_punct
  cases hg : (pyStrip t).getLast? with
  | none => simp
  | some c =>
    have hns : pyIsSpace c = false := pyStrip_getLast_not_space t c hg
    have hcn : c ≠ '\n' := by
      intro hc
      rw [hc] at hns
      exact absurd hns (by decide)
    simp only [Option.some.injEq]
    constructor
    · intro hcont
      refine ⟨c, rfl, ?_⟩
      have hmem : c ∈ SENTENCE_END_CHARS := by
        simpa using hcont
      simp only [SENTENCE_END_CHARS, List.mem_cons, List.not_mem_nil, or_false] at hmem
      simp only [TERMINAL_PUNCT, List.mem_cons, List.not_mem_nil, or_false]
      rcases hmem with h | h | h | h | h | h | h | h | h
      all_goals first
        | exact absurd h hcn
        | simp [h]
    · rintro ⟨c2, hc2, hmem⟩
      subst hc2
      have hc : c ∈ SENTENCE_END_CHARS := by
        simp only [TERMINAL_PUNCT, List.mem_cons, List.not_mem_nil, or_false] at hmem
        simp only [SENTENCE_END_CHARS, List.mem_cons, List.not_mem_nil, or_false]
        tauto
      simpa using hc

-- ---------------------------------------------------------------------------
-- Claim C10
-- ---------------------------------------------------------------------------

/-- C10: for every input text that is empty or consists only of
whitespace, translate_text returns an empty translated_text without
invoking the external completion service, and the translation loop
iteration publishes no event, makes no completion call, and leaves the
session state untouched for such a segment. -/
theorem whitespace_translation_noop (llm : LlmEnv) (md5 : Str → Str)
    (env : TransEnv) (st : TransState) (text : Str) (seg_id source_lang : String)
    (hws : ∀ c ∈ text, pyIsSpace c = true) :
    translate_text llm text source_lang = (⟨[], source_lang, "unknown", false⟩, false) ∧
    translation_step md5 env st text seg_id source_lang = ⟨st, [], [], none⟩ := by
  have hs : pyStrip text = [] := pyStrip_all_space text hws
  constructor
  · unfold translate_text
    rw [if_pos hs]
  · unfold translation_step
    by_cases hz : env.session_lang_zh = true
    · rw [if_pos hz]
    · rw [if_neg hz, if_pos hs]

/-- C10, witness: the empty-translation theorem applied to a concrete
whitespace-only segment text. -/
theorem whitespace_translation_noop_witness :
    (∀ c ∈ ("  ".data : Str), pyIsSpace c = true) ∧
    (translate_text ⟨true, some "x".data⟩ "  ".data "en" =
        (⟨[], "en", "unknown", false⟩, false) ∧
      translation_step idHash okTransEnv ⟨[], none⟩ "  ".data "sA" "en" =
        ⟨⟨[], none⟩, [], [], none⟩) :=
  ⟨by decide,
   whitespace_translation_noop ⟨true, some "x".data⟩ idHash okTransEnv ⟨[], none⟩
     "  ".data "sA" "en" (by decide)⟩

-- ---------------------------------------------------------------------------
-- Claim C5
-- ---------------------------------------------------------------------------

lemma translate_text_no_error (env : LlmEnv) (text : Str) (src : String)
    (h : env.available = true ∧ env.response.isSome) :
    (translate_text env text src).1.error = false := by
  unfold translate_text
  by_cases hs : pyStrip text = []
  · rw [if_pos hs]
  · rw [if_neg hs, if_neg (by simp [h.1])]
    obtain ⟨t, ht⟩ := Option.isSome_iff_exists.mp h.2
    rw [ht]

/-- C5: for a new transcript segment of a non-zh session whose draft
translation succeeds, the engine enters the revision branch (attempting
a merged revision translation, up to the dedup hash check) exactly when
the updated window holds at least 2 entries, the merged window text
length lies within [30, 200], and the new segment text ends in terminal
sentence punctuation; and whenever the merged text exceeds 200
characters without a sentence boundary the window is collapsed to only
its most recent entry. -/
theorem revision_trigger_conditions (md5 : Str → Str) (env : TransEnv)
    (st : TransState) (text : Str) (seg_id source_lang : String)
    (hzh : env.session_lang_zh = false)
    (htext : pyStrip text ≠ [])
    (hdraft : env.draft_llm.available = true ∧ env.draft_llm.response.isSome) :
    ((translation_step md5 env st text seg_id source_lang).revision_attempted.isSome
        ↔ (2 ≤ (step_window st text seg_id).length ∧
           REVISION_MIN_CHARS ≤ (step_merged st text seg_id).length ∧
           (step_merged st text seg_id).length ≤ REVISION_MAX_CHARS ∧
           ends_in_terminal_punct text)) ∧
    (REVISION_MAX_CHARS < (step_merged st text seg_id).length →
      ¬ ends_in_terminal_punct text →
      (translation_step md5 env st text seg_id source_lang).state.window =
        takeLast 1 (step_window st text seg_id)) := by
  have hdr : (translate_text env.draft_llm text source_lang).1.error = false :=
    translate_text_no_error env.draft_llm text source_lang hdraft
  simp only [translation_step]
  rw [if_neg (by simp [hzh]), if_neg (by simpa using htext), if_neg (by simp [hdr])]
  have hw : takeLast SEGMENT_MERGE_WINDOW (st.window ++ [⟨text, seg_id⟩]) =
      step_window st text seg_id := rfl
  rw [hw]
  have hm : joinSpace (List.map Seg.text (step_window st text seg_id)) =
      step_merged st text seg_id := rfl
  rw [hm]
  by_cases hC : 2 ≤ (step_window st text seg_id).length ∧
      REVISION_MIN_CHARS ≤ (step_merged st text seg_id).length ∧
      (step_merged st text seg_id).length ≤ REVISION_MAX_CHARS ∧
      has_sentence_end text = true
  · rw [if_pos hC]
    constructor
    · by_cases hh : some (md5 (step_merged st text seg_id)) ≠ st.last_hash
      · rw [if_pos hh]
        by_cases hre : (translate_text env.revision_llm (step_merged st text seg_id)
            source_lang).1.error = true
        · rw [if_pos hre]
          simp only [Option.isSome_some, true_iff]
          exact ⟨hC.1, hC.2.1, hC.2.2.1, (sentence_end_iff text).mp hC.2.2.2⟩
        · rw [if_neg hre]
          simp only [Option.isSome_some, true_iff]
          exact ⟨hC.1, hC.2.1, hC.2.2.1, (sentence_end_iff text).mp hC.2.2.2⟩
      · rw [if_neg hh]
        simp only [Option.isSome_some, true_iff]
        exact ⟨hC.1, hC.2.1, hC.2.2.1, (sentence_end_iff text).mp hC.2.2.2⟩
    · intro hover _
      exact absurd hC.2.2.1 (by omega)
  · rw [if_neg hC]
    by_cases hm : REVISION_MAX_CHARS < (step_merged st text seg_id).length
    · rw [if_pos hm]
      refine ⟨?_, fun _ _ => rfl⟩
      simp only [Option.isSome_none, Bool.false_eq_true, false_iff]
      intro ⟨h1, h2, h3, h4⟩
      exact hC ⟨h1, h2, h3, (sentence_end_iff text).mpr h4⟩
    · rw [if_neg hm]
      refine ⟨?_, fun hover _ => absurd hover hm⟩
      simp only [Option.isSome_none, Bool.false_eq_true, false_iff]
      intro ⟨h1, h2, h3, h4⟩
      exact hC ⟨h1, h2, h3, (sentence_end_iff text).mpr h4⟩

/-- C5, witness: the revision-trigger theorem applied to a concrete
window of two segments whose merged text lies in range and ends in a
period; the revision branch is indeed entered. -/
theorem revision_trigger_conditions_witness :
    okTransEnv.session_lang_zh = false ∧
    pyStrip dupT2 ≠ [] ∧
    (okTransEnv.draft_llm.available = true ∧ okTransEnv.draft_llm.response.isSome) ∧
    (((translation_step idHash okTransEnv ⟨[⟨dupT1, "g1"⟩], none⟩ dupT2 "g2"
        "en").revision_attempted.isSome
        ↔ (2 ≤ (step_window ⟨[⟨dupT1, "g1"⟩], none⟩ dupT2 "g2").length ∧
           REVISION_MIN_CHARS ≤ (step_merged ⟨[⟨dupT1, "g1"⟩], none⟩ dupT2 "g2").length ∧
           (step_merged ⟨[⟨dupT1, "g1"⟩], none⟩ dupT2 "g2").length ≤ REVISION_MAX_CHARS ∧
           ends_in_terminal_punct dupT2)) ∧
      (REVISION_MAX_CHARS < (step_merged ⟨[⟨dupT1, "g1"⟩], none⟩ dupT2 "g2").length →
        ¬ ends_in_terminal_punct dupT2 →
        (translation_step idHash okTransEnv ⟨[⟨dupT1, "g1"⟩], none⟩ dupT2 "g2"
            "en").state.window =
          takeLast 1 (step_window ⟨[⟨dupT1, "g1"⟩], none⟩ dupT2 "g2"))) :=
  ⟨rfl, by decide, ⟨rfl, rfl⟩,
   revision_trigger_conditions idHash okTransEnv ⟨[⟨dupT1, "g1"⟩], none⟩ dupT2 "g2"
     "en" rfl (by decide) ⟨rfl, rfl⟩⟩

-- ---------------------------------------------------------------------------
-- Claim C3
-- ---------------------------------------------------------------------------

lemma getLast?_append_right {α : Type} (l1 l2 : List α) (h : l2 ≠ []) :
    (l1 ++ l2).getLast? = l2.getLast? := by
  rw [List.getLast?_append]
  cases hg : l2.getLast? with
  | none =>
    have : l2 = [] := by
      cases l2 with
      | nil => rfl
      | cons x xs => simp [List.getLast?_concat] at hg
    exact absurd this h
  | some x => rfl

lemma revisionHashes_append (md5 : Str → Str) (a b : List TransOutEvent) :
    revisionHashes md5 (a ++ b) = revisionHashes md5 a ++ revisionHashes md5 b := by
  unfold revisionHashes
  exact List.filterMap_append a b _

/-- One translation_loop iteration either publishes no revision and
keeps the stored hash, or publishes exactly one revision whose hash it
stores, that hash differing from the previously stored one — provided
the revision completion call cannot fail. -/
lemma step_hash_cases (md5 : Str → Str) (env : TransEnv) (st : TransState)
    (text : Str) (seg_id source_lang : String)
    (hrev : env.revision_llm.available = true ∧ env.revision_llm.response.isSome) :
    (revisionHashes md5 (translation_step md5 env st text seg_id source_lang).events = [] ∧
      (translation_step md5 env st text seg_id source_lang).state.last_hash = st.last_hash) ∨
    (∃ h, revisionHashes md5 (translation_step md5 env st text seg_id source_lang).events = [h] ∧
      (translation_step md5 env st text seg_id source_lang).state.last_hash = some h ∧
      st.last_hash ≠ some h) := by
  simp only [translation_step]
  by_cases hz : env.session_lang_zh = true
  · rw [if_pos hz]
    left
    exact ⟨rfl, rfl⟩
  rw [if_neg hz]
  by_cases hsp : pyStrip text = []
  · rw [if_pos hsp]
    left
    exact ⟨rfl, rfl⟩
  rw [if_neg hsp]
  by_cases hde : (translate_text env.draft_llm text source_lang).1.error = true
  · rw [if_pos hde]
    left
    exact ⟨rfl, rfl⟩
  rw [if_neg hde]
  set recent := takeLast SEGMENT_MERGE_WINDOW (st.window ++ [⟨text, seg_id⟩]) with hrec
  set merged := joinSpace (recent.map Seg.text) with hmer
  by_cases hC : 2 ≤ recent.length ∧ REVISION_MIN_CHARS ≤ merged.length ∧
      merged.length ≤ REVISION_MAX_CHARS ∧ has_sentence_end text = true
  · rw [if_pos hC]
    by_cases hh : some (md5 merged) ≠ st.last_hash
    · rw [if_pos hh]
      have hre : (translate_text env.revision_llm merged source_lang).1.error = false :=
        translate_text_no_error _ _ _ hrev
      rw [if_neg (by simp [hre])]
      right
      exact ⟨md5 merged, rfl, rfl, Ne.symm hh⟩
    · rw [if_neg hh]
      left
      exact ⟨rfl, rfl⟩
  · rw [if_neg hC]
    by_cases hm2 : REVISION_MAX_CHARS < merged.length
    · rw [if_pos hm2]
      left
      exact ⟨rfl, rfl⟩
    · rw [if_neg hm2]
      left
      exact ⟨rfl, rfl⟩

/-- Across any run of the translation loop in which revision calls
succeed, the stored hash heads the published revision hashes: the
sequence (stored hash, published revision hashes...) has pairwise
distinct neighbours and the final stored hash is its last element. -/
lemma revision_run_invariant (md5 : Str → Str) (msgs : List TransMsg) :
    ∀ st : TransState,
      (∀ m ∈ msgs, m.env.revision_llm.available = true ∧ m.env.revision_llm.response.isSome) →
      List.Chain' Ne (st.last_hash.toList ++
        revisionHashes md5 (translation_run md5 st msgs).2) ∧
      (translation_run md5 st msgs).1.last_hash =
        (st.last_hash.toList ++ revisionHashes md5 (translation_run md5 st msgs).2).getLast? := by
  induction msgs with
  | nil =>
    intro st _
    constructor
    · cases hst : st.last_hash <;> simp [translation_run, revisionHashes, hst]
    · cases hst : st.last_hash <;> simp [translation_run, revisionHashes, hst]
  | cons m rest ih =>
    intro st hsucc
    have hm := hsucc m (by simp)
    have hrest : ∀ m2 ∈ rest,
        m2.env.revision_llm.available = true ∧ m2.env.revision_llm.response.isSome :=
      fun m2 h2 => hsucc m2 (by simp [h2])
    have hrun : translation_run md5 st (m :: rest) =
        ((translation_run md5
            (translation_step md5 m.env st m.text m.seg_id m.language).state rest).1,
         (translation_step md5 m.env st m.text m.seg_id m.language).events ++
           (translation_run md5
             (translation_step md5 m.env st m.text m.seg_id m.language).state rest).2) := rfl
    obtain ⟨ihc, ihl⟩ :=
      ih (translation_step md5 m.env st m.text m.seg_id m.language).state hrest
    rcases step_hash_cases md5 m.env st m.text m.seg_id m.language hm with
      ⟨h1, h2⟩ | ⟨h, h1, h2, h3⟩
    · rw [hrun]
      simp only [revisionHashes_append, h1, List.nil_append]
      rw [h2] at ihc ihl
      exact ⟨ihc, ihl⟩
    · rw [hrun]
      simp only [revisionHashes_append, h1, List.singleton_append]
      rw [h2] at ihc ihl
      constructor
      · cases hst : st.last_hash with
        | none => simpa using ihc
        | some h0 =>
          have hne : h0 ≠ h := by
            intro he
            rw [hst, he] at h3
            exact h3 rfl
          simp only [Option.toList_some, List.singleton_append]
          rw [List.chain'_cons]
          exact ⟨hne, by simpa using ihc⟩
      · rw [ihl]
        rw [getLast?_append_right _ _ (List.cons_ne_nil h _)]
        simp

/-- C3, counterexample: a reachable six-message trace for one session on
which the engine publishes three revisions whose merged-text hashes are
dupM1, dupM2, dupM1: the first and third published revision events carry
the same content hash, so the engine does publish two revisions with
identical merged-text hash over the session lifetime (only consecutive
duplicates are suppressed). -/
theorem revision_hash_repeat_counterexample :
    revisionHashes idHash (translation_run idHash ⟨[], none⟩ dupTrace).2 =
      [dupM1, dupM2, dupM1] ∧
    dupM1 ≠ dupM2 ∧
    (revisionHashes idHash (translation_run idHash ⟨[], none⟩ dupTrace).2).count dupM1 = 2 := by
  refine ⟨by decide, by decide, by decide⟩

/-- C3, amended: for every session run in which revision completion
calls succeed, the engine never publishes two CONSECUTIVE revision
events with identical merged-text content hash; since only the most
recent revision hash is stored, a hash may recur non-consecutively. -/
theorem revision_hash_consecutive_distinct (md5 : Str → Str) (msgs : List TransMsg)
    (hsucc : ∀ m ∈ msgs,
      m.env.revision_llm.available = true ∧ m.env.revision_llm.response.isSome) :
    List.Chain' Ne (revisionHashes md5 (translation_run md5 ⟨[], none⟩ msgs).2) := by
  have h := (revision_run_invariant md5 msgs ⟨[], none⟩ hsucc).1
  simpa using h

/-- C3, witness: the amended theorem applied to the six-message
duplicate trace, whose consecutive revision hashes are indeed pairwise
distinct. -/
theorem revision_hash_consecutive_distinct_witness :
    (∀ m ∈ dupTrace,
      m.env.revision_llm.available = true ∧ m.env.revision_llm.response.isSome) ∧
    List.Chain' Ne (revisionHashes idHash (translation_run idHash ⟨[], none⟩ dupTrace).2) :=
  ⟨by decide, revision_hash_consecutive_distinct idHash dupTrace (by decide)⟩

-- ---------------------------------------------------------------------------
-- Claim C9
-- ---------------------------------------------------------------------------

lemma add_audio_asr_buf (b : SessionBuffer) (sid : String) (a : Audio) :
    (b.add_audio sid a).asr_buffers sid = b.asr_buffers sid ++ [a] := by
  simp [SessionBuffer.add_audio, upd_same]

lemma add_audio_asr_count (b : SessionBuffer) (sid : String) (a : Audio) :
    (b.add_audio sid a).asr_sample_counts sid = b.asr_sample_counts sid + a.length := by
  simp [SessionBuffer.add_audio, upd_same]

lemma get_asr_audio_of_ne (b : SessionBuffer) (sid : String)
    (h : b.asr_buffers sid ≠ []) :
    b.get_asr_audio sid = some ((b.asr_buffers sid).flatten,
      { b with
        segment_offsets := upd b.segment_offsets sid (b.segment_offsets sid +
          (((b.asr_buffers sid).flatten.length : ℚ)) / (TARGET_SAMPLE_RATE : ℚ))
        asr_buffers := upd b.asr_buffers sid []
        asr_sample_counts := upd b.asr_sample_counts sid 0 }) := by
  unfold SessionBuffer.get_asr_audio
  rw [if_neg h]

/-- The cached-count invariant holds in every reachable buffer state. -/
lemma count_inv_of_reachable : ∀ b : SessionBuffer,
    SessionBuffer.Reachable b → SessionBuffer.CountInv b := by
  intro b h
  induction h with
  | start => intro sid; rfl
  | @add_audio b sid a _ ih =>
    intro s2
    by_cases hs : s2 = sid
    · subst hs
      rw [add_audio_asr_buf, add_audio_asr_count, ih s2]
      simp
    · have hb2 : (b.add_audio sid a).asr_buffers s2 = b.asr_buffers s2 := by
        simp [SessionBuffer.add_audio, upd, hs]
      have hc2 : (b.add_audio sid a).asr_sample_counts s2 = b.asr_sample_counts s2 := by
        simp [SessionBuffer.add_audio, upd, hs]
      rw [hb2, hc2, ih s2]
  | @drain_asr b sid au b2 _ hq ih =>
    by_cases hemp : b.asr_buffers sid = []
    · rw [SessionBuffer.get_asr_audio, if_pos hemp] at hq
      cases hq
    · rw [get_asr_audio_of_ne b sid hemp] at hq
      obtain ⟨-, hb2⟩ := Prod.mk.injEq .. ▸ (Option.some.injEq .. ▸ hq)
      intro s2
      rw [← hb2]
      by_cases hs : s2 = sid
      · subst hs
        simp [upd_same]
      · simp only [upd]
        rw [if_neg hs, if_neg hs]
        exact ih s2
  | @drain_diar b sid _ ih =>
    intro s2
    unfold SessionBuffer.get_diarization_audio
    by_cases hemp : b.diarization_buffers sid = []
    · rw [if_pos hemp]
      exact ih s2
    · rw [if_neg hemp]
      exact ih s2
  | @clear b sid _ ih =>
    intro s2
    by_cases hs : s2 = sid
    · subst hs
      simp [SessionBuffer.clear_session, upd_same]
    · simp only [SessionBuffer.clear_session, upd]
      rw [if_neg hs, if_neg hs]
      exact ih s2

/-- C9: in every reachable buffer state, once the readiness check
reports at least five seconds (80000 samples) accumulated for a session,
the transcription drain succeeds: the buffered chunk list is nonempty,
so the concatenation inside get_asr_audio cannot fail. -/
theorem asr_ready_drain_safe (b : SessionBuffer) (sid : String)
    (hr : SessionBuffer.Reachable b) (hready : b.is_asr_ready sid = true) :
    b.asr_buffers sid ≠ [] ∧ (b.get_asr_audio sid).isSome = true := by
  have hinv := count_inv_of_reachable b hr sid
  have hc : ASR_BUFFER_SAMPLES ≤ b.asr_sample_counts sid := by
    simpa [SessionBuffer.is_asr_ready] using hready
  have hne : b.asr_buffers sid ≠ [] := by
    intro hemp
    rw [hemp] at hinv
    simp only [List.map_nil, List.sum_nil] at hinv
    rw [hinv] at hc
    exact absurd hc (by simp [ASR_BUFFER_SAMPLES])
  refine ⟨hne, ?_⟩
  rw [get_asr_audio_of_ne b sid hne]
  rfl

/-- C9, witness: the drain-safety theorem applied to a reachable buffer
holding exactly five seconds of audio. -/
theorem asr_ready_drain_safe_witness :
    SessionBuffer.Reachable readyBuf ∧ readyBuf.is_asr_ready "s" = true ∧
    (readyBuf.asr_buffers "s" ≠ [] ∧ (readyBuf.get_asr_audio "s").isSome = true) := by
  have hr : SessionBuffer.Reachable readyBuf :=
    SessionBuffer.Reachable.add_audio SessionBuffer.Reachable.start
  have hcount : readyBuf.asr_sample_counts "s" = 80000 := by
    rw [readyBuf, add_audio_asr_count]
    have hlen : bigChunk.length = 80000 := by
      simp only [bigChunk, List.length_replicate]
    rw [hlen]
    rfl
  have hready : readyBuf.is_asr_ready "s" = true := by
    simp [SessionBuffer.is_asr_ready, hcount, ASR_BUFFER_SAMPLES]
  exact ⟨hr, hready, asr_ready_drain_safe readyBuf "s" hr hready⟩

-- ---------------------------------------------------------------------------
-- Claim C1
-- ---------------------------------------------------------------------------

lemma mem_of_getLast? {α : Type} {l : List α} {a : α} (h : a ∈ l.getLast?) : a ∈ l := by
  obtain ⟨hne, rfl⟩ := List.mem_getLast?_eq_getLast h
  exact List.getLast_mem hne

lemma sumDur_append (a b : List Nat) : sumDur (a ++ b) = sumDur a + sumDur b := by
  simp [sumDur]

lemma sumDur_nonneg (ds : List Nat) : 0 ≤ sumDur ds := by
  induction ds with
  | nil => simp [sumDur]
  | cons n rest ih =>
    have h : sumDur (n :: rest) =
        (n : ℚ) / (TARGET_SAMPLE_RATE : ℚ) + sumDur rest := by
      simp [sumDur]
    have h0 : (0 : ℚ) ≤ (n : ℚ) / (TARGET_SAMPLE_RATE : ℚ) := by
      apply div_nonneg
      · exact_mod_cast Nat.zero_le n
      · norm_num [TARGET_SAMPLE_RATE]
    rw [h]
    linarith

lemma absStarts_append (a b : List (List RawSeg)) :
    absStarts (a ++ b) = absStarts a ++ absStarts b := by
  simp [absStarts]

/-- Case analysis of one asr_loop iteration: either no drain happens and
the offset is untouched, or the accumulated audio is drained, the offset
advances by exactly the drained duration, and the emitted event, if any,
carries the Whisper segments shifted by the offset that held before the
drain. -/
lemma asr_step_cases (env : AsrEnv) (b : SessionBuffer) (sid : String) (chunk : Audio) :
    ((asr_step env b sid chunk).drained = none ∧
     (asr_step env b sid chunk).event = none ∧
     (asr_step env b sid chunk).buf.segment_offsets sid = b.segment_offsets sid) ∨
    (∃ n, (asr_step env b sid chunk).drained = some n ∧
      (asr_step env b sid chunk).buf.segment_offsets sid =
        b.segment_offsets sid + (n : ℚ) / (TARGET_SAMPLE_RATE : ℚ) ∧
      ((asr_step env b sid chunk).event = none ∨
       (asr_step env b sid chunk).event =
         some (env.segments.map fun s =>
           { s with start := s.start + b.segment_offsets sid,
                    finish := s.finish + b.segment_offsets sid }))) := by
  simp only [asr_step]
  by_cases hready : (b.add_audio sid chunk).is_asr_ready sid = true
  · rw [if_pos hready]
    have hne : (b.add_audio sid chunk).asr_buffers sid ≠ [] := by
      rw [add_audio_asr_buf]
      simp
    rw [get_asr_audio_of_ne _ _ hne]
    dsimp only
    right
    refine ⟨((b.add_audio sid chunk).asr_buffers sid).flatten.length, ?_⟩
    have hadd : (b.add_audio sid chunk).segment_offsets = b.segment_offsets := rfl
    have hoff2 : (upd (b.add_audio sid chunk).segment_offsets sid
        ((b.add_audio sid chunk).segment_offsets sid +
          (((b.add_audio sid chunk).asr_buffers sid).flatten.length : ℚ) /
            (TARGET_SAMPLE_RATE : ℚ))) sid =
        b.segment_offsets sid +
          (((b.add_audio sid chunk).asr_buffers sid).flatten.length : ℚ) /
            (TARGET_SAMPLE_RATE : ℚ) := by
      rw [upd_same, hadd]
    have htoff : (upd (b.add_audio sid chunk).segment_offsets sid
        ((b.add_audio sid chunk).segment_offsets sid +
          (((b.add_audio sid chunk).asr_buffers sid).flatten.length : ℚ) /
            (TARGET_SAMPLE_RATE : ℚ))) sid -
        (((b.add_audio sid chunk).asr_buffers sid).flatten.length : ℚ) /
          (TARGET_SAMPLE_RATE : ℚ) = b.segment_offsets sid := by
      rw [hoff2]
      ring
    by_cases hsp : env.has_speech = true
    · rw [if_pos hsp]
      by_cases hsegs : env.segments = []
      · rw [if_pos hsegs]
        exact ⟨rfl, hoff2, Or.inl rfl⟩
      · rw [if_neg hsegs]
        refine ⟨rfl, hoff2, Or.inr ?_⟩
        simp only [SessionBuffer.get_offset, htoff]
    · rw [if_neg hsp]
      exact ⟨rfl, hoff2, Or.inl rfl⟩
  · rw [if_neg hready]
    left
    exact ⟨rfl, rfl, rfl⟩

/-- Splitting a run at any point: the second half continues from the
first half's buffer, and events and drains concatenate. -/
lemma asr_run_from_append (b : SessionBuffer) (sid : String)
    (l1 l2 : List (Audio × AsrEnv)) :
    asr_run_from b sid (l1 ++ l2) =
      ⟨(asr_run_from (asr_run_from b sid l1).buf sid l2).buf,
       (asr_run_from b sid l1).events ++
         (asr_run_from (asr_run_from b sid l1).buf sid l2).events,
       (asr_run_from b sid l1).drains ++
         (asr_run_from (asr_run_from b sid l1).buf sid l2).drains⟩ := by
  induction l1 generalizing b with
  | nil => simp [asr_run_from]
  | cons i rest ih =>
    obtain ⟨chunk, env⟩ := i
    simp only [List.cons_append, asr_run_from, List.append_eq]
    rw [ih]
    simp [List.append_assoc]

/-- Offset accounting along any run: the final transcription offset is
the starting offset plus the summed durations of all drains. -/
lemma asr_run_from_offset (sid : String) :
    ∀ (inputs : List (Audio × AsrEnv)) (b : SessionBuffer),
      (asr_run_from b sid inputs).buf.segment_offsets sid =
        b.segment_offsets sid + sumDur (asr_run_from b sid inputs).drains := by
  intro inputs
  induction inputs with
  | nil =>
    intro b
    simp [asr_run_from, sumDur]
  | cons i rest ih =>
    intro b
    obtain ⟨chunk, env⟩ := i
    simp only [asr_run_from]
    rcases asr_step_cases env b sid chunk with ⟨hd, -, hoff⟩ | ⟨n, hd, hoff, -⟩
    · rw [ih, hoff, hd]
      simp [sumDur]
    · rw [ih, hoff, hd]
      simp only [Option.toList_some, List.singleton_append]
      simp [sumDur]
      ring


/-- Timestamp discipline along any run satisfying the speech-to-text
contract: the flattened absolute segment start times are non-decreasing,
and every emitted start lies between the starting and the final
transcription offset. -/
lemma asr_run_from_chain (sid : String) :
    ∀ (inputs : List (Audio × AsrEnv)) (b : SessionBuffer),
      asr_wf b sid inputs →
      List.Chain' (· ≤ ·) (absStarts (asr_run_from b sid inputs).events) ∧
      (∀ x ∈ absStarts (asr_run_from b sid inputs).events,
        b.segment_offsets sid ≤ x ∧
          x ≤ (asr_run_from b sid inputs).buf.segment_offsets sid) := by
  intro inputs
  induction inputs with
  | nil =>
    intro b _
    simp [asr_run_from, absStarts]
  | cons i rest ih =>
    intro b hwf
    obtain ⟨chunk, env⟩ := i
    simp only [asr_wf] at hwf
    obtain ⟨hseg, hwfr⟩ := hwf
    obtain ⟨ihc, ihb⟩ := ih (asr_step env b sid chunk).buf hwfr
    have hoffrun := asr_run_from_offset sid rest (asr_step env b sid chunk).buf
    have hmono2 : (asr_step env b sid chunk).buf.segment_offsets sid ≤
        (asr_run_from (asr_step env b sid chunk).buf sid rest).buf.segment_offsets sid := by
      have hnn := sumDur_nonneg (asr_run_from (asr_step env b sid chunk).buf sid rest).drains
      rw [hoffrun]
      linarith
    simp only [asr_run_from]
    rw [absStarts_append]
    rcases asr_step_cases env b sid chunk with ⟨-, he, hoff⟩ | ⟨n, hd, hoff, hev⟩
    · rw [he]
      constructor
      · simpa [absStarts] using ihc
      · intro x hx
        simp only [Option.toList_none, absStarts, List.map_nil, List.flatten_nil,
          List.nil_append] at hx
        obtain ⟨h1, h2⟩ := ihb x hx
        rw [hoff] at h1
        exact ⟨h1, h2⟩
    · have hnn : (0 : ℚ) ≤ (n : ℚ) / (TARGET_SAMPLE_RATE : ℚ) := by
        apply div_nonneg
        · exact_mod_cast Nat.zero_le n
        · norm_num [TARGET_SAMPLE_RATE]
      have hstep_le : b.segment_offsets sid ≤
          (asr_step env b sid chunk).buf.segment_offsets sid := by
        rw [hoff]
        linarith
      rcases hev with he | he
      · rw [he]
        constructor
        · simpa [absStarts] using ihc
        · intro x hx
          simp only [Option.toList_none, absStarts, List.map_nil, List.flatten_nil,
            List.nil_append] at hx
          obtain ⟨h1, h2⟩ := ihb x hx
          exact ⟨le_trans hstep_le h1, h2⟩
      · have hsw := hseg n hd
        rw [he]
        have hstarts : absStarts
            [env.segments.map fun s =>
              { s with start := s.start + b.segment_offsets sid,
                       finish := s.finish + b.segment_offsets sid }] =
            env.segments.map (fun s => s.start + b.segment_offsets sid) := by
          simp [absStarts, List.map_map]
        simp only [Option.toList_some, hstarts]
        have hbound : ∀ x ∈ env.segments.map (fun s => s.start + b.segment_offsets sid),
            b.segment_offsets sid ≤ x ∧
              x ≤ (asr_step env b sid chunk).buf.segment_offsets sid := by
          intro x hx
          obtain ⟨s, hs, hxe⟩ := List.mem_map.mp hx
          obtain ⟨hs0, hsd⟩ := hsw.1 s hs
          constructor
          · rw [← hxe]
            linarith
          · rw [← hxe, hoff]
            linarith
        constructor
        · refine List.chain'_append.mpr ⟨?_, ihc, ?_⟩
          · rw [List.chain'_map]
            exact List.Chain'.imp
              (fun a c hac => add_le_add_right hac (b.segment_offsets sid)) hsw.2
          · intro x hx y hy
            have hxm : x ∈ env.segments.map (fun s => s.start + b.segment_offsets sid) :=
              mem_of_getLast? hx
            have hym : y ∈
                absStarts (asr_run_from (asr_step env b sid chunk).buf sid rest).events :=
              List.mem_of_mem_head? hy
            exact le_trans (hbound x hxm).2 (ihb y hym).1
        · intro x hx
          rcases List.mem_append.mp hx with hx | hx
          · obtain ⟨h1, h2⟩ := hbound x hx
            exact ⟨h1, le_trans h2 hmono2⟩
          · obtain ⟨h1, h2⟩ := ihb x hx
            exact ⟨le_trans hstep_le h1, h2⟩

/-- C1: along every per-session sequence of audio appends and
transcription drains satisfying the speech-to-text interface contract,
the cumulative transcription offset of every prefix equals the sum of
the durations (samples/16000) of all audio drained in that prefix (in
particular it is monotonically non-decreasing along the run), and the
absolute start times written onto emitted transcript segments (raw start
plus the offset that held before the drain) are non-decreasing across
the session's successive transcription events. -/
theorem asr_offset_and_timestamps (sid : String) (inputs : List (Audio × AsrEnv))
    (hwf : asr_wf SessionBuffer.start sid inputs) :
    (∀ pre suf, inputs = pre ++ suf →
      (asr_run sid pre).buf.segment_offsets sid = sumDur (asr_run sid pre).drains ∧
      (asr_run sid pre).buf.segment_offsets sid ≤
        (asr_run sid inputs).buf.segment_offsets sid) ∧
    List.Chain' (· ≤ ·) (absStarts (asr_run sid inputs).events) := by
  constructor
  · intro pre suf hps
    have h1 : (asr_run sid pre).buf.segment_offsets sid =
        sumDur (asr_run sid pre).drains := by
      have h := asr_run_from_offset sid pre SessionBuffer.start
      simpa [asr_run, SessionBuffer.start] using h
    refine ⟨h1, ?_⟩
    rw [hps]
    show (asr_run sid pre).buf.segment_offsets sid ≤
      (asr_run_from SessionBuffer.start sid (pre ++ suf)).buf.segment_offsets sid
    rw [asr_run_from_append]
    show (asr_run sid pre).buf.segment_offsets sid ≤
      (asr_run_from (asr_run_from SessionBuffer.start sid pre).buf sid
        suf).buf.segment_offsets sid
    have h2 := asr_run_from_offset sid suf (asr_run_from SessionBuffer.start sid pre).buf
    have h3 := sumDur_nonneg
      (asr_run_from (asr_run_from SessionBuffer.start sid pre).buf sid suf).drains
    rw [h2]
    have hsame : (asr_run sid pre).buf = (asr_run_from SessionBuffer.start sid pre).buf := rfl
    rw [hsame]
    linarith
  · exact (asr_run_from_chain sid inputs SessionBuffer.start hwf).1

/-- C1, witness: the offset-and-timestamp theorem applied to a concrete
one-iteration run that drains five seconds of audio and emits two
ordered segments. -/
theorem asr_offset_and_timestamps_witness :
    asr_wf SessionBuffer.start "s" c1Inputs ∧
    ((∀ pre suf, c1Inputs = pre ++ suf →
      (asr_run "s" pre).buf.segment_offsets "s" = sumDur (asr_run "s" pre).drains ∧
      (asr_run "s" pre).buf.segment_offsets "s" ≤
        (asr_run "s" c1Inputs).buf.segment_offsets "s") ∧
    List.Chain' (· ≤ ·) (absStarts (asr_run "s" c1Inputs).events)) := by
  have hcount : (SessionBuffer.start.add_audio "s" bigChunk).asr_sample_counts "s" = 80000 := by
    rw [add_audio_asr_count]
    have hlen : bigChunk.length = 80000 := by
      simp only [bigChunk, List.length_replicate]
    rw [hlen]
    rfl
  have hready : (SessionBuffer.start.add_audio "s" bigChunk).is_asr_ready "s" = true := by
    simp [SessionBuffer.is_asr_ready, hcount, ASR_BUFFER_SAMPLES]
  have hbuf : (SessionBuffer.start.add_audio "s" bigChunk).asr_buffers "s" = [bigChunk] := by
    rw [add_audio_asr_buf]
    rfl
  have hflat : ((SessionBuffer.start.add_audio "s" bigChunk).asr_buffers "s").flatten.length
      = 80000 := by
    rw [hbuf, List.flatten_cons, List.flatten_nil, List.append_nil]
    simp only [bigChunk, List.length_replicate]
  have hne : (SessionBuffer.start.add_audio "s" bigChunk).asr_buffers "s" ≠ [] := by
    rw [hbuf]
    simp
  have hstep : (asr_step c1Env SessionBuffer.start "s" bigChunk).drained = some 80000 := by
    simp only [asr_step]
    rw [if_pos hready, get_asr_audio_of_ne _ _ hne]
    dsimp only
    rw [if_pos (show c1Env.has_speech = true from rfl)]
    rw [if_neg (show ¬ c1Env.segments = [] by simp [c1Env])]
    rw [hflat]
  have hwf : asr_wf SessionBuffer.start "s" c1Inputs := by
    simp only [c1Inputs, asr_wf]
    refine ⟨?_, trivial⟩
    intro n hn
    rw [hstep] at hn
    injection hn with hn
    subst hn
    have hdur : ((80000 : Nat) : ℚ) / (TARGET_SAMPLE_RATE : ℚ) = 5 := by
      norm_num [TARGET_SAMPLE_RATE]
    constructor
    · intro s hs
      rw [hdur]
      simp only [c1Env, List.mem_cons, List.not_mem_nil, or_false] at hs
      rcases hs with hs | hs <;> rw [hs] <;> constructor <;> norm_num
    · simp only [c1Env]
      rw [List.chain'_cons]
      refine ⟨by norm_num, List.chain'_singleton _⟩
  exact ⟨hwf, asr_offset_and_timestamps "s" c1Inputs hwf⟩

end ConCall
